import Mathlib

/-!
# Verification of the laminar-devtools core (`src/laminar-devtools.js`)

A shallow embedding of the data model and the operations of the devtools
overlay system, together with theorems settling the specification claims.

Numbers that are JS floats in the source (pixel coordinates, sizes) are
modelled as rationals (`ℚ`); the inputs appearing in the claims are finite
pixel quantities for which float rounding is irrelevant to the stated
inequalities.  DOM elements are identified by their path from the document
body (the list of child indices), so `[]` stands for `document.body` itself
and element paths are non-empty lists.
-/

namespace LaminarDevtools

/-- Pixel rectangle as produced by `getBoundingClientRect`. -/
structure Rect where
  left : ℚ
  top : ℚ
  right : ℚ
  bottom : ℚ
  width : ℚ
  height : ℚ
deriving Repr, DecidableEq

/-- Result of `OverlayManager.calculatePosition`. -/
structure Position where
  left : ℚ
  top : ℚ
  width : ℚ
  height : ℚ
deriving Repr, DecidableEq

/-- Embeds `OverlayManager.calculatePosition` (laminar-devtools.js:951-973):
inflate the target rect by `offset` on all sides, then clamp the position
with `max`/`min` and finally clamp the size to what remains of the
viewport. -/
def calculatePosition (offset viewportWidth viewportHeight : ℚ) (targetRect : Rect) :
    Position :=
  let left := targetRect.left - offset
  let top := targetRect.top - offset
  let width := targetRect.width + offset * 2
  let height := targetRect.height + offset * 2
  let adjustedLeft := max 0 (min left (viewportWidth - width))
  let adjustedTop := max 0 (min top (viewportHeight - height))
  let adjustedWidth := min width (viewportWidth - adjustedLeft)
  let adjustedHeight := min height (viewportHeight - adjustedTop)
  { left := adjustedLeft, top := adjustedTop,
    width := adjustedWidth, height := adjustedHeight }

/-- An (x, y) candidate position for a tooltip. -/
structure TooltipPosition where
  left : ℚ
  top : ℚ
deriving Repr, DecidableEq

/-- Embeds `TooltipManager.isPositionWithinViewport`
(laminar-devtools.js:1334-1344). -/
def isPositionWithinViewport (viewportWidth viewportHeight : ℚ)
    (position : TooltipPosition) (width height margin : ℚ) : Bool :=
  margin ≤ position.left ∧ margin ≤ position.top ∧
    position.left + width ≤ viewportWidth - margin ∧
    position.top + height ≤ viewportHeight - margin

/-- Embeds `TooltipManager.calculateTooltipPosition`
(laminar-devtools.js:1277-1324): try the four placement strategies
(bottom/top/right/left of the overlay rect) in order and take the first
that fits the viewport minus the margin; otherwise fall back to a
clamped bottom-center position. -/
def calculateTooltipPosition (margin viewportWidth viewportHeight : ℚ)
    (overlayRect : Rect) (tooltipWidth tooltipHeight : ℚ) : TooltipPosition :=
  let strategies : List TooltipPosition :=
    [ { left := overlayRect.left + overlayRect.width / 2 - tooltipWidth / 2,
        top := overlayRect.bottom + margin },
      { left := overlayRect.left + overlayRect.width / 2 - tooltipWidth / 2,
        top := overlayRect.top - tooltipHeight - margin },
      { left := overlayRect.right + margin,
        top := overlayRect.top + overlayRect.height / 2 - tooltipHeight / 2 },
      { left := overlayRect.left - tooltipWidth - margin,
        top := overlayRect.top + overlayRect.height / 2 - tooltipHeight / 2 } ]
  match strategies.find?
      (fun p => isPositionWithinViewport viewportWidth viewportHeight p
        tooltipWidth tooltipHeight margin) with
  | some p => p
  | none =>
      { left := max margin (min
          (overlayRect.left + overlayRect.width / 2 - tooltipWidth / 2)
          (viewportWidth - tooltipWidth - margin)),
        top := max margin (min
          (overlayRect.bottom + margin)
          (viewportHeight - tooltipHeight - margin)) }

/-- The four direction tokens a resize handle's `data-direction` tag can
mention; `direction.includes('right')` etc. in the source test for the
presence of a token in the tag string. -/
structure ResizeDirection where
  left : Bool
  right : Bool
  top : Bool
  bottom : Bool
deriving Repr, DecidableEq

/-- Geometry captured at `handleResizeStart` (laminar-devtools.js:4425-4448). -/
structure ResizeState where
  startX : ℚ
  startY : ℚ
  startWidth : ℚ
  startHeight : ℚ
  startLeft : ℚ
  startTop : ℚ
  direction : ResizeDirection
deriving Repr, DecidableEq

/-- Resulting panel geometry after a resize move. -/
structure PanelRect where
  width : ℚ
  height : ℚ
  left : ℚ
  top : ℚ
deriving Repr, DecidableEq

/-- Embeds `ComponentTreeView.handleResize` (laminar-devtools.js:4503-4556):
apply the pointer delta according to the handle direction, clamp the size to
a 300×400 minimum and the viewport maximum, compensate the position on
left/top handles, and clamp the position to the viewport. -/
def handleResize (viewportWidth viewportHeight : ℚ) (rs : ResizeState)
    (clientX clientY : ℚ) : PanelRect :=
  let deltaX := clientX - rs.startX
  let deltaY := clientY - rs.startY
  let newWidth :=
    if rs.direction.right then rs.startWidth + deltaX
    else if rs.direction.left then rs.startWidth - deltaX
    else rs.startWidth
  let newLeft :=
    if rs.direction.right then rs.startLeft
    else if rs.direction.left then rs.startLeft + deltaX
    else rs.startLeft
  let newHeight :=
    if rs.direction.bottom then rs.startHeight + deltaY
    else if rs.direction.top then rs.startHeight - deltaY
    else rs.startHeight
  let newTop :=
    if rs.direction.bottom then rs.startTop
    else if rs.direction.top then rs.startTop + deltaY
    else rs.startTop
  let minWidth : ℚ := 300
  let minHeight : ℚ := 400
  let newWidth := max minWidth (min newWidth viewportWidth)
  let newHeight := max minHeight (min newHeight viewportHeight)
  let newLeft :=
    if rs.direction.left ∧ newWidth = minWidth then
      rs.startLeft + rs.startWidth - minWidth
    else newLeft
  let newTop :=
    if rs.direction.top ∧ newHeight = minHeight then
      rs.startTop + rs.startHeight - minHeight
    else newTop
  let newLeft := max 0 (min newLeft (viewportWidth - newWidth))
  let newTop := max 0 (min newTop (viewportHeight - newHeight))
  { width := newWidth, height := newHeight, left := newLeft, top := newTop }

/-- An element handle: the path of child indices from `document.body`. -/
abbrev Path : Type := List Nat

/-- One notification emitted through `DevtoolsState.notify`: the `type`
string together with its payload (laminar-devtools.js:483-491 and the
`notify` call sites). -/
inductive Notification where
  | resetNotif : Notification
  | treeSelectionActiveChanged (active : Bool) : Notification
  | treeSelectionChanged (element : Option Path) : Notification
  | keyboardSelectionChanged (element previousElement : Option Path) : Notification
  | mousePositionChanged (clientX clientY : ℤ) : Notification
  | altKeyChanged (pressed : Bool) : Notification
  | shiftKeyChanged (pressed : Bool) : Notification
  | targetElementChanged (element previousElement : Option Path) : Notification
  | hierarchicalTooltipVisibilityChanged (visible : Bool) : Notification
deriving Repr, DecidableEq

/-- The interaction-state record held by `DevtoolsState`
(laminar-devtools.js:426-465); the observer set and tooltip timeout are
modelled separately. -/
structure DevtoolsState where
  altPressed : Bool := false
  shiftPressed : Bool := false
  currentTargetElement : Option Path := none
  lastTargetElement : Option Path := none
  mouseX : ℤ := 0
  mouseY : ℤ := 0
  hierarchicalTooltipVisible : Bool := false
  hierarchicalTooltipToggled : Bool := false
  keyboardNavigationActive : Bool := false
  keyboardSelectedElement : Option Path := none
  treeSelectedElement : Option Path := none
  treeSelectionActive : Bool := false
deriving Repr, DecidableEq

namespace DevtoolsState

/-- Embeds `setKeyboardNavigationActive` (laminar-devtools.js:524-530).
Returns the new state together with the notifications emitted (none:
this mutator never calls `notify`). -/
def setKeyboardNavigationActive (s : DevtoolsState) (active : Bool) :
    DevtoolsState × List Notification :=
  ({ s with keyboardNavigationActive := active,
            keyboardSelectedElement :=
              if active then s.keyboardSelectedElement else none }, [])

/-- Embeds `setTreeSelectionActive` (laminar-devtools.js:537-542). -/
def setTreeSelectionActive (s : DevtoolsState) (active : Bool) :
    DevtoolsState × List Notification :=
  if s.treeSelectionActive ≠ active then
    ({ s with treeSelectionActive := active },
      [.treeSelectionActiveChanged active])
  else (s, [])

/-- Embeds `setTreeSelectedElement` (laminar-devtools.js:549-554). -/
def setTreeSelectedElement (s : DevtoolsState) (element : Option Path) :
    DevtoolsState × List Notification :=
  if s.treeSelectedElement ≠ element then
    ({ s with treeSelectedElement := element },
      [.treeSelectionChanged element])
  else (s, [])

/-- Embeds `setKeyboardSelectedElement` (laminar-devtools.js:561-572). -/
def setKeyboardSelectedElement (s : DevtoolsState) (element : Option Path) :
    DevtoolsState × List Notification :=
  let previousElement := s.keyboardSelectedElement
  let s1 := { s with keyboardSelectedElement := element,
                     keyboardNavigationActive :=
                       if element.isSome then true
                       else s.keyboardNavigationActive }
  if previousElement ≠ element then
    (s1, [.keyboardSelectionChanged element previousElement])
  else (s1, [])

/-- Embeds `updateMousePosition` (laminar-devtools.js:580-584): the
position is overwritten and `mousePositionChanged` is emitted
unconditionally, without comparing against the previous position. -/
def updateMousePosition (s : DevtoolsState) (clientX clientY : ℤ) :
    DevtoolsState × List Notification :=
  ({ s with mouseX := clientX, mouseY := clientY },
    [.mousePositionChanged clientX clientY])

/-- Embeds `setAltPressed` (laminar-devtools.js:591-599); the cursor-style
side effect is outside the model. -/
def setAltPressed (s : DevtoolsState) (pressed : Bool) :
    DevtoolsState × List Notification :=
  let wasPressed := s.altPressed
  let s1 := { s with altPressed := pressed }
  if wasPressed ≠ pressed then (s1, [.altKeyChanged pressed]) else (s1, [])

/-- Embeds `setShiftPressed` (laminar-devtools.js:606-613). -/
def setShiftPressed (s : DevtoolsState) (pressed : Bool) :
    DevtoolsState × List Notification :=
  let wasPressed := s.shiftPressed
  let s1 := { s with shiftPressed := pressed }
  if wasPressed ≠ pressed then (s1, [.shiftKeyChanged pressed]) else (s1, [])

/-- Embeds `setCurrentTargetElement` (laminar-devtools.js:628-635). -/
def setCurrentTargetElement (s : DevtoolsState) (element : Option Path) :
    DevtoolsState × List Notification :=
  let previousElement := s.currentTargetElement
  let s1 := { s with currentTargetElement := element }
  if previousElement ≠ element then
    (s1, [.targetElementChanged element previousElement])
  else (s1, [])

/-- Embeds `setHierarchicalTooltipVisible` (laminar-devtools.js:642-649). -/
def setHierarchicalTooltipVisible (s : DevtoolsState) (visible : Bool) :
    DevtoolsState × List Notification :=
  let wasVisible := s.hierarchicalTooltipVisible
  let s1 := { s with hierarchicalTooltipVisible := visible }
  if wasVisible ≠ visible then
    (s1, [.hierarchicalTooltipVisibilityChanged visible])
  else (s1, [])

end DevtoolsState

/-- An observer callback registered on the state store.  A callback may
update its own world of type `σ` or throw (model of a JS exception with a
message of type `ε`). -/
def Observer (σ ε : Type) : Type := Notification → σ → Except ε σ

/-- Embeds `DevtoolsState.notify` (laminar-devtools.js:483-491): invoke
every registered observer in order; a throwing observer's exception is
caught and recorded via `console.error` (the returned error list) and the
iteration continues with the remaining observers.  The function is total:
the caught exception never escapes `notify`. -/
def notifyObservers {σ ε : Type} (observers : List (Observer σ ε))
    (event : Notification) (world : σ) : σ × List ε :=
  observers.foldl
    (fun acc callback =>
      match callback event acc.1 with
      | .ok w => (w, acc.2)
      | .error e => (acc.1, acc.2 ++ [e]))
    (world, [])

/-- The overlay's visual state: `some e` when the overlay element is shown
highlighting element `e`, `none` when hidden. -/
abbrev OverlayShown : Type := Option Path

/-- Whether an element has all three non-empty devtools attributes, as a
predicate on an attribute record: `Boolean(getSourcePath(e) &&
getFilename(e) && getSourceLine(e))` — a missing property reads as
`undefined` (falsy) and an empty string is falsy. -/
def truthy : Option String → Bool
  | some s => s ≠ ""
  | none => false

/-- The per-element devtools attribute record (`__scalasourcepath`,
`__scalafilename`, `__scalasourceline`); `none` models an absent
property. -/
structure ElemAttrs where
  sourcePath : Option String := none
  filename : Option String := none
  sourceLine : Option String := none
deriving Repr, DecidableEq

/-- A rendered DOM element: its devtools attribute record and its child
elements in document order. -/
inductive DomTree where
  | node (attrs : ElemAttrs) (children : List DomTree)
deriving Repr

/-- The rendered document: the children of `document.body`. -/
abbrev Dom : Type := List DomTree

namespace DomTree

def attrs : DomTree → ElemAttrs
  | node a _ => a

def children : DomTree → List DomTree
  | node _ cs => cs

end DomTree

/-- Look up the element at a path; `[]` is `document.body`, not an
element. -/
def getSubtree? (d : Dom) : Path → Option DomTree
  | [] => none
  | [i] => d[i]?
  | i :: j :: rest =>
      match d[i]? with
      | some t => getSubtree? t.children (j :: rest)
      | none => none

def validPath (d : Dom) (p : Path) : Bool := (getSubtree? d p).isSome

def attrsAt (d : Dom) (p : Path) : Option ElemAttrs :=
  (getSubtree? d p).map DomTree.attrs

/-- Embeds `PropertyAccessor.hasSourcePath` (laminar-devtools.js:152-154):
`Object.hasOwn` — presence of the property, regardless of its value. -/
def hasSourcePath (d : Dom) (p : Path) : Bool :=
  match attrsAt d p with
  | some a => a.sourcePath.isSome
  | none => false

/-- Embeds `PropertyAccessor.getSourcePath` (laminar-devtools.js:162-164). -/
def getSourcePath (d : Dom) (p : Path) : Option String :=
  (attrsAt d p).bind ElemAttrs.sourcePath

/-- Embeds `PropertyAccessor.getFilename` (laminar-devtools.js:172-174). -/
def getFilename (d : Dom) (p : Path) : Option String :=
  (attrsAt d p).bind ElemAttrs.filename

/-- Embeds `PropertyAccessor.getSourceLine` (laminar-devtools.js:182-184). -/
def getSourceLine (d : Dom) (p : Path) : Option String :=
  (attrsAt d p).bind ElemAttrs.sourceLine

/-- Embeds `PropertyAccessor.hasAllProperties` (laminar-devtools.js:192-196):
`Boolean(getSourcePath(e) && getFilename(e) && getSourceLine(e))`. -/
def hasAllProperties (d : Dom) (p : Path) : Bool :=
  truthy (getSourcePath d p) && truthy (getFilename d p) &&
    truthy (getSourceLine d p)

/-- The chain walked by `element.parentElement` loops that stop at
`document.body`: the proper non-empty ancestor paths of `p`, nearest
first. -/
def ancestorPaths (p : Path) : List Path :=
  ((List.range p.length).reverse.map (fun k => p.take k)).filter
    (fun q => !q.isEmpty)

/-- Embeds `KeyboardNavigator.findParentComponent`
(laminar-devtools.js:1992-2003): walk `parentElement` up to (excluding)
`document.body` and return the first ancestor having the source-path
property. -/
def findParentComponent (d : Dom) (p : Path) : Option Path :=
  (ancestorPaths p).find? (fun q => hasSourcePath d q)

mutual

/-- All paths of the subtree rooted at path `p` holding tree `t`, in
document (preorder) order — the visit order of a `TreeWalker`. -/
def preorderTree : DomTree → Path → List Path
  | .node _ cs, p => p :: preorderForest cs p 0

/-- All paths of the forest `ts` whose members are children number
`i, i+1, …` of the element at path `p`, in document order. -/
def preorderForest : List DomTree → Path → Nat → List Path
  | [], _, _ => []
  | t :: rest, p, i => preorderTree t (p ++ [i]) ++ preorderForest rest p (i + 1)

end

/-- All element paths of the document in document order. -/
def preorder (d : Dom) : List Path := preorderForest d [] 0

/-- The strict descendants of the element at `p`, in document order (the
nodes a `TreeWalker` rooted at `p` visits, the root excluded). -/
def strictDescendants (d : Dom) (p : Path) : List Path :=
  match getSubtree? d p with
  | some (.node _ cs) => preorderForest cs p 0
  | none => []

/-- The direct-child check inside `KeyboardNavigator.findChildComponents`
(laminar-devtools.js:2037-2050): walk from `q`'s parent up while the
ancestor differs from `p`; `q` is direct when no such intermediate
ancestor has the source-path property.  (`findChildComponents` only tests
descendants `q` of `p`, for which this walk is exactly the ancestors
strictly between `q` and `p`.) -/
def isDirectChildOf (d : Dom) (p q : Path) : Bool :=
  ((ancestorPaths q).takeWhile (fun r => r ≠ p)).all
    (fun r => !hasSourcePath d r)

/-- Embeds `KeyboardNavigator.findChildComponents`
(laminar-devtools.js:2010-2054): the walker yields every descendant with
the source-path property in document order, and the post-filter keeps the
direct ones. -/
def findChildComponents (d : Dom) (p : Path) : List Path :=
  (strictDescendants d p).filter
    (fun q => hasSourcePath d q && isDirectChildOf d p q)

/-- Embeds `KeyboardNavigator.findTopLevelComponents`
(laminar-devtools.js:2074-2106): elements with the source-path property
and no such ancestor below `document.body`, in document order.  (The
walker's `FILTER_REJECT` prunes subtrees of accepted nodes; every pruned
node has an accepted ancestor and would fail the ancestor check anyway,
so the accepted set is this filter.) -/
def findTopLevelComponents (d : Dom) : List Path :=
  (preorder d).filter
    (fun q => hasSourcePath d q &&
      (ancestorPaths q).all (fun r => !hasSourcePath d r))

mutual

/-- Height of a DOM subtree (max path length below it, plus one). -/
def heightTree : DomTree → Nat
  | .node _ cs => 1 + heightForest cs

def heightForest : List DomTree → Nat
  | [] => 0
  | t :: rest => max (heightTree t) (heightForest rest)

end

mutual

theorem mem_preorderTree_length {t : DomTree} {p q : Path}
    (h : q ∈ preorderTree t p) :
    p.length ≤ q.length ∧ q.length < p.length + heightTree t := by
  cases t with
  | node a cs =>
    simp only [preorderTree, List.mem_cons] at h
    cases h with
    | inl h => subst h; simp only [heightTree]; omega
    | inr h =>
      have := mem_preorderForest_length h
      simp only [heightTree]
      omega

theorem mem_preorderForest_length {ts : List DomTree} {p q : Path} {i : Nat}
    (h : q ∈ preorderForest ts p i) :
    p.length < q.length ∧ q.length ≤ p.length + heightForest ts := by
  cases ts with
  | nil => simp [preorderForest] at h
  | cons t rest =>
    simp only [preorderForest, List.mem_append] at h
    cases h with
    | inl h =>
      have := mem_preorderTree_length h
      simp only [List.length_append, List.length_cons, List.length_nil] at this
      simp only [heightForest]
      omega
    | inr h =>
      have := mem_preorderForest_length h
      simp only [heightForest]
      omega

end

theorem heightTree_le_of_mem {t : DomTree} {ts : List DomTree}
    (hm : t ∈ ts) : heightTree t ≤ heightForest ts := by
  induction ts with
  | nil => simp at hm
  | cons u us ihd =>
    simp only [heightForest]
    rcases List.mem_cons.mp hm with h1 | h1
    · subst h1; omega
    · have := ihd h1; omega

theorem getSubtree?_height {d : Dom} {p : Path} {t : DomTree}
    (h : getSubtree? d p = some t) :
    heightTree t + p.length ≤ heightForest d + 1 := by
  induction p generalizing d with
  | nil => simp [getSubtree?] at h
  | cons i rest ih =>
    cases rest with
    | nil =>
      simp only [getSubtree?] at h
      have hm : heightTree t ≤ heightForest d :=
        heightTree_le_of_mem (List.getElem?_mem h)
      simp only [List.length_cons, List.length_nil]
      omega
    | cons j rest2 =>
      simp only [getSubtree?] at h
      match hu : d[i]? with
      | none => rw [hu] at h; simp at h
      | some u =>
        rw [hu] at h
        have hud : heightTree u ≤ heightForest d :=
          heightTree_le_of_mem (List.getElem?_mem hu)
        have hrec := ih h
        cases u with
        | node a cs =>
          simp only [heightTree] at hud
          simp only [DomTree.children] at hrec
          simp only [List.length_cons] at hrec ⊢
          omega

theorem mem_strictDescendants_length {d : Dom} {p q : Path}
    (h : q ∈ strictDescendants d p) :
    p.length < q.length ∧ q.length ≤ heightForest d := by
  unfold strictDescendants at h
  match hs : getSubtree? d p with
  | none => rw [hs] at h; simp at h
  | some (.node a cs) =>
    rw [hs] at h
    have h1 := mem_preorderForest_length h
    have h2 := getSubtree?_height hs
    simp only [heightTree] at h2
    omega

theorem mem_findChildComponents_length {d : Dom} {p q : Path}
    (h : q ∈ findChildComponents d p) :
    p.length < q.length ∧ q.length ≤ heightForest d :=
  mem_strictDescendants_length (List.mem_of_mem_filter h)

/-- Fuel-indexed form of `traverseDepthFirst`: the JS recursion descends
strictly into descendants, so its depth is bounded by the document height;
the fuel only encodes that bound (see `traverseDF_unfold`, which recovers
the exact recursive equation of the source). -/
def traverseDFAux (d : Dom) : Nat → Path → List Path
  | 0, _ => []
  | fuel + 1, p =>
      (if hasSourcePath d p then [p] else []) ++
        ((findChildComponents d p).map (traverseDFAux d fuel)).flatten

/-- Embeds `KeyboardNavigator.getAllComponentsInOrder`'s inner
`traverseDepthFirst` (laminar-devtools.js:2119-2128): emit the element if
it has the source-path property, then recurse into its direct child
components. -/
def traverseDF (d : Dom) (p : Path) : List Path :=
  traverseDFAux d (heightForest d + 1) p

theorem getSubtree?_eq_none_of_long {d : Dom} {p : Path}
    (h : heightForest d < p.length) : getSubtree? d p = none := by
  match hs : getSubtree? d p with
  | none => rfl
  | some t =>
    have hb := getSubtree?_height hs
    cases t with
    | node a cs => simp only [heightTree] at hb; omega

theorem hasSourcePath_eq_false_of_long {d : Dom} {p : Path}
    (h : heightForest d < p.length) : hasSourcePath d p = false := by
  simp [hasSourcePath, attrsAt, getSubtree?_eq_none_of_long h]

theorem findChildComponents_eq_nil_of_long {d : Dom} {p : Path}
    (h : heightForest d < p.length) : findChildComponents d p = [] := by
  simp [findChildComponents, strictDescendants, getSubtree?_eq_none_of_long h]

theorem traverseDFAux_congr (d : Dom) :
    ∀ f g p, heightForest d + 1 ≤ f + p.length →
      heightForest d + 1 ≤ g + p.length →
      traverseDFAux d f p = traverseDFAux d g p := by
  intro f
  induction f using Nat.strong_induction_on with
  | _ f ih =>
    intro g p hf hg
    match f, g with
    | 0, 0 => rfl
    | 0, g1 + 1 =>
      have hlong : heightForest d < p.length := by omega
      simp [traverseDFAux, hasSourcePath_eq_false_of_long hlong,
        findChildComponents_eq_nil_of_long hlong]
    | f1 + 1, 0 =>
      have hlong : heightForest d < p.length := by omega
      simp [traverseDFAux, hasSourcePath_eq_false_of_long hlong,
        findChildComponents_eq_nil_of_long hlong]
    | f1 + 1, g1 + 1 =>
      simp only [traverseDFAux]
      congr 1
      congr 1
      apply List.map_congr_left
      intro q hq
      have hlen := mem_findChildComponents_length hq
      exact ih f1 (by omega) g1 q (by omega) (by omega)

/-- The recursive equation of `traverseDepthFirst`
(laminar-devtools.js:2119-2128). -/
theorem traverseDF_unfold (d : Dom) (p : Path) :
    traverseDF d p =
      (if hasSourcePath d p then [p] else []) ++
        ((findChildComponents d p).map (traverseDF d)).flatten := by
  show traverseDFAux d (heightForest d + 1) p = _
  simp only [traverseDFAux]
  congr 1
  congr 1
  apply List.map_congr_left
  intro q hq
  have hlen := mem_findChildComponents_length hq
  exact traverseDFAux_congr d _ _ q (by omega) (by omega)

/-- Embeds `KeyboardNavigator.getAllComponentsInOrder`
(laminar-devtools.js:2112-2136). -/
def getAllComponentsInOrder (d : Dom) : List Path :=
  ((findTopLevelComponents d).map (traverseDF d)).flatten

/-- The component record built by `DevtoolsSystem.getAllComponents`. -/
structure ComponentInfo where
  elem : Path
  filename : String
  line : String
  path : String
deriving Repr, DecidableEq

/-- Embeds `DevtoolsSystem.getAllComponents` (laminar-devtools.js:4829-4844):
map every component of the depth-first traversal to its attribute record
and keep those whose three attributes are all truthy.  (The source maps
first and filters on `info.filename && info.line && info.path`; filtering
first on the same three truthiness tests and then reading the attributes —
which the filter guarantees to be present — yields the same list.) -/
def getAllComponents (d : Dom) : List ComponentInfo :=
  ((getAllComponentsInOrder d).filter (fun e => hasAllProperties d e)).map
    (fun e =>
      { elem := e, filename := (getFilename d e).getD "",
        line := (getSourceLine d e).getD "",
        path := (getSourcePath d e).getD "" })

/-- Embeds `KeyboardNavigator.findDeepestComponent`
(laminar-devtools.js:2142-2145): the last element of the depth-first
component list, or `null` when there are none. -/
def findDeepestComponent (d : Dom) : Option Path :=
  (getAllComponentsInOrder d).getLast?

/-- Embeds `KeyboardNavigator.findFirstComponent`
(laminar-devtools.js:2151-2154). -/
def findFirstComponent (d : Dom) : Option Path :=
  (getAllComponentsInOrder d).head?

/-- Embeds `KeyboardNavigator.navigateToParent`
(laminar-devtools.js:1936-1946) for a present current element. -/
def navigateToParent (d : Dom) (currentElement : Path) : Option Path :=
  match findParentComponent d currentElement with
  | some parent => some parent
  | none => findDeepestComponent d

/-- Embeds `KeyboardNavigator.navigateToFirstChild`
(laminar-devtools.js:1953-1963) for a present current element. -/
def navigateToFirstChild (d : Dom) (currentElement : Path) : Option Path :=
  match findChildComponents d currentElement with
  | child :: _ => some child
  | [] => findFirstComponent d

/-- Embeds `KeyboardNavigator.getAllSiblingsIncludingCurrent`
(laminar-devtools.js:2061-2068). -/
def getAllSiblingsIncludingCurrent (d : Dom) (currentElement : Path) :
    List Path :=
  match findParentComponent d currentElement with
  | none => findTopLevelComponents d
  | some parent => findChildComponents d parent

/-- `Array.prototype.indexOf`: index of the first occurrence, `none` for
the source's `-1`. -/
def jsIndexOf (siblings : List Path) (e : Path) : Option Nat :=
  siblings.findIdx? (fun x => x = e)

/-- Embeds `KeyboardNavigator.getNextSibling`
(laminar-devtools.js:2162-2169). -/
def getNextSibling (currentElement : Path) (siblings : List Path) :
    Option Path :=
  if siblings.isEmpty then none
  else
    match jsIndexOf siblings currentElement with
    | none => siblings[0]?
    | some i => siblings[(i + 1) % siblings.length]?

/-- Embeds `KeyboardNavigator.getPreviousSibling`
(laminar-devtools.js:2177-2184); the source's
`(currentIndex - 1 + siblings.length) % siblings.length` equals
`(i + n - 1) % n` over `Nat` since `currentIndex ≥ 0`. -/
def getPreviousSibling (currentElement : Path) (siblings : List Path) :
    Option Path :=
  if siblings.isEmpty then none
  else
    match jsIndexOf siblings currentElement with
    | none => siblings[siblings.length - 1]?
    | some i => siblings[(i + siblings.length - 1) % siblings.length]?

/-- Embeds `KeyboardNavigator.navigateToNextSibling`
(laminar-devtools.js:1970-1974) for a present current element. -/
def navigateToNextSibling (d : Dom) (currentElement : Path) : Option Path :=
  getNextSibling currentElement (getAllSiblingsIncludingCurrent d currentElement)

/-- Embeds `KeyboardNavigator.navigateToPreviousSibling`
(laminar-devtools.js:1981-1985) for a present current element. -/
def navigateToPreviousSibling (d : Dom) (currentElement : Path) : Option Path :=
  getPreviousSibling currentElement (getAllSiblingsIncludingCurrent d currentElement)

/-- Embeds `OverlayManager.show` (laminar-devtools.js:881-917) restricted
to its effect on what is displayed: a target failing
`PropertyAccessor.hasAllProperties` hides the overlay instead. -/
def overlayShow (d : Dom) (targetElement : Path) : OverlayShown :=
  if hasAllProperties d targetElement then some targetElement else none

/-- Embeds `OverlayManager.handleStateChange` (laminar-devtools.js:801-830):
the overlay's reaction, as the new displayed element, to one state-store
notification, given the store state `st` at notification time and the
currently displayed element `shown`.  In the `targetElementChanged` case
with an element present, tree-selection active and a different
tree-selected element, neither branch fires and the overlay is left as it
is; events the switch ignores leave it unchanged as well. -/
def handleStateChange (d : Dom) (st : DevtoolsState) (shown : OverlayShown) :
    Notification → OverlayShown
  | .resetNotif => none
  | .targetElementChanged element _previous =>
      match element with
      | some el =>
          if !st.treeSelectionActive || st.treeSelectedElement = some el then
            overlayShow d el
          else shown
      | none => if !st.treeSelectionActive then none else shown
  | .treeSelectionChanged element =>
      match element with
      | some el => overlayShow d el
      | none => none
  | .treeSelectionActiveChanged active =>
      if !active && st.currentTargetElement = none then none else shown
  | _ => shown

/-- Embeds `ComponentTreeView.generateComponentsHash`
(laminar-devtools.js:2756-2760). -/
def generateComponentsHash (components : List ComponentInfo) : String :=
  String.intercalate "|"
    (components.map (fun comp =>
      comp.filename ++ ":" ++ comp.line ++ ":" ++ comp.path))

/-- Lexicographic order on element paths: the document order produced by
`compareDocumentPosition` in `sortNodesByDOMOrder` (an ancestor precedes
its descendants, earlier siblings precede later ones). -/
def pathLe : Path → Path → Bool
  | [], _ => true
  | _ :: _, [] => false
  | a :: arest, b :: brest =>
      if a < b then true else if b < a then false else pathLe arest brest

theorem pathLe_total : ∀ a b : Path, pathLe a b = true ∨ pathLe b a = true := by
  intro a
  induction a with
  | nil => intro b; left; rfl
  | cons x arest ih =>
    intro b
    cases b with
    | nil => right; rfl
    | cons y brest =>
      simp only [pathLe]
      rcases Nat.lt_trichotomy x y with h | h | h
      · left; simp [h]
      · subst h
        simp only [lt_irrefl, if_false]
        exact ih brest
      · right; simp [h, Nat.not_lt.mpr (Nat.le_of_lt h)]

theorem pathLe_trans : ∀ a b c : Path,
    pathLe a b = true → pathLe b c = true → pathLe a c = true := by
  intro a
  induction a with
  | nil => intro b c _ _; rfl
  | cons x arest ih =>
    intro b c hab hbc
    cases b with
    | nil => simp [pathLe] at hab
    | cons y brest =>
      cases c with
      | nil => simp [pathLe] at hbc
      | cons z crest =>
        simp only [pathLe] at hab hbc ⊢
        rcases Nat.lt_trichotomy x y with h1 | h1 | h1
        · rcases Nat.lt_trichotomy y z with h2 | h2 | h2
          · simp [Nat.lt_trans h1 h2]
          · subst h2; simp [h1]
          · simp [h2, Nat.not_lt.mpr (Nat.le_of_lt h2)] at hbc
        · subst h1
          rcases Nat.lt_trichotomy x z with h2 | h2 | h2
          · simp [h2]
          · subst h2
            simp only [lt_irrefl, if_false] at hab hbc ⊢
            exact ih _ _ hab hbc
          · simp [h2, Nat.not_lt.mpr (Nat.le_of_lt h2)] at hbc
        · simp [h1, Nat.not_lt.mpr (Nat.le_of_lt h1)] at hab

/-- The `id`-free view of one node produced by
`ComponentTreeView.buildHierarchy`; the source's `node-{index}` id is the
node's index in the returned list, `parent` / `children` are represented
by indices into that list. -/
structure BNode where
  elem : Path
  filename : String
  line : String
  path : String
  parentIdx : Option Nat
  level : Nat
  children : List Nat
  expanded : Bool
deriving Repr, DecidableEq

/-- Element of the `index`-th component, `[]` (body, never a component)
out of range. -/
def elemAt (comps : List ComponentInfo) (i : Nat) : Path :=
  (comps[i]?.map ComponentInfo.elem).getD []

/-- `nodeMap.get(element)` where `nodeMap` was filled by `Map.set` keyed on
`comp.element` (laminar-devtools.js:3056-3069): the *last* index holding
this element wins, matching `Map.set` overwrite semantics. -/
def nodeMapLookup (comps : List ComponentInfo) (e : Path) : Option Nat :=
  ((comps.enum.filter (fun x => x.2.elem = e)).map (fun x => x.1)).getLast?

/-- The parent (as an index) assigned to component `i` by the
relationship-building pass (laminar-devtools.js:3072-3085): the nearest
source-path ancestor, when that element is a key of the node map. -/
def parentIdxOf (d : Dom) (comps : List ComponentInfo) (i : Nat) : Option Nat :=
  match comps[i]? with
  | none => none
  | some c =>
      match findParentComponent d c.elem with
      | some parentElement => nodeMapLookup comps parentElement
      | none => none

/-- The level values after the relationship pass: processing components in
input order, a node's level is read off its parent's *current* level
(still `0` when the parent has not been processed yet), plus one
(laminar-devtools.js:3078-3079). -/
def computeLevels (par : Nat → Option Nat) (n : Nat) : List Nat :=
  (List.range n).foldl
    (fun acc i =>
      acc ++ [match par i with
        | none => 0
        | some j => acc.getD j 0 + 1])
    []

/-- Index order by document position of the components' elements: the
comparator of `sortNodesByDOMOrder` (laminar-devtools.js:3107-3125). -/
def idxLe (comps : List ComponentInfo) (i k : Nat) : Prop :=
  pathLe (elemAt comps i) (elemAt comps k) = true

instance (comps : List ComponentInfo) : DecidableRel (idxLe comps) :=
  fun i k => by unfold idxLe; infer_instance

instance (comps : List ComponentInfo) : IsTotal Nat (idxLe comps) :=
  ⟨fun i k => pathLe_total (elemAt comps i) (elemAt comps k)⟩

instance (comps : List ComponentInfo) : IsTrans Nat (idxLe comps) :=
  ⟨fun _ _ _ h1 h2 => pathLe_trans _ _ _ h1 h2⟩

/-- Embeds `ComponentTreeView.buildHierarchy` together with the final
`sortNodesByDOMOrder` pass (laminar-devtools.js:3050-3091, 3107-3125).
Returns the nodes (index `i` holds the node of component `i`, the
source's `node-{i}`) and the root indices; every node's `children` list
and the root list are sorted by document position of their elements. -/
def buildHierarchy (d : Dom) (comps : List ComponentInfo) :
    List BNode × List Nat :=
  let n := comps.length
  let par := parentIdxOf d comps
  let levels := computeLevels par n
  let childrenOf : Nat → List Nat := fun j =>
    List.insertionSort (idxLe comps)
      ((List.range n).filter (fun i => par i = some j))
  let roots :=
    List.insertionSort (idxLe comps)
      ((List.range n).filter (fun i => (par i).isNone))
  ((List.range n).map (fun i =>
      { elem := elemAt comps i,
        filename := ((comps[i]?.map ComponentInfo.filename).getD ""),
        line := ((comps[i]?.map ComponentInfo.line).getD ""),
        path := ((comps[i]?.map ComponentInfo.path).getD ""),
        parentIdx := par i,
        level := levels.getD i 0,
        children := childrenOf i,
        expanded := false }),
    roots)

/-- The nearest ancestor that is *inspectable* (has all three attributes
present and non-empty) — the spec-level notion against which the
hierarchy's parent links are compared. -/
def nearestInspectableAncestor (d : Dom) (p : Path) : Option Path :=
  (ancestorPaths p).find? (fun q => hasAllProperties d q)

/-- The `ComponentTreeView` fields `buildTreeData` touches
(laminar-devtools.js:2584-2628 for the initial values). -/
structure TreeViewState where
  lastComponentsHash : Option String := none
  treeData : Option (List BNode × List Nat) := none
  selectedNodeId : Option Nat := none
  renderCache : List Nat := []
deriving Repr, DecidableEq

/-- Embeds `ComponentTreeView.buildTreeData` (laminar-devtools.js:3029-3043).
The returned flag tells whether a rebuild happened; on a skip the state —
including the tree (with its `expanded` flags) and the selection — is
returned untouched. -/
def buildTreeData (d : Dom) (s : TreeViewState) : TreeViewState × Bool :=
  let components := getAllComponents d
  let currentHash := generateComponentsHash components
  if s.lastComponentsHash = some currentHash ∧ s.treeData.isSome then
    (s, false)
  else
    ({ s with lastComponentsHash := some currentHash,
              treeData := some (buildHierarchy d components),
              renderCache := [] }, true)

/-- Attribute record with all three devtools properties present and
non-empty. -/
def mkAttrs (p f l : String) : ElemAttrs :=
  { sourcePath := some p, filename := some f, sourceLine := some l }

/-- Example document: components A > B > C nested in a chain. -/
def exDom : Dom :=
  [.node (mkAttrs "app/A.scala" "A.scala" "1")
    [.node (mkAttrs "app/B.scala" "B.scala" "2")
      [.node (mkAttrs "app/C.scala" "C.scala" "3") []]]]

/-- Example document: root component A with child B, and root component D. -/
def exDom2 : Dom :=
  [.node (mkAttrs "app/A.scala" "A.scala" "1")
    [.node (mkAttrs "app/B.scala" "B.scala" "2") []],
   .node (mkAttrs "app/D.scala" "D.scala" "4") []]

/-- Example document: a single element whose source-path property is
present but empty, with no filename and no line. -/
def exDomEmptyAttrs : Dom :=
  [.node { sourcePath := some "", filename := none, sourceLine := none } []]

-- ===========================================================================
-- Claim theorems
-- ===========================================================================

/-- Claim C2: whenever tree-selection is active and the tree-selected element
differs from a newly hovered target element, the overlay reaction to the
`targetElementChanged` hover notification leaves the display unchanged: in
particular, if the tree-selected element was displayed it stays displayed,
and the hovered element is never displayed, until tree-selection is
explicitly cleared. -/
theorem tree_selection_precedence (d : Dom) (st : DevtoolsState)
    (shown : OverlayShown) (t h : Path) (prev : Option Path)
    (hactive : st.treeSelectionActive = true)
    (hsel : st.treeSelectedElement = some t)
    (hne : t ≠ h) :
    handleStateChange d st shown (.targetElementChanged (some h) prev) = shown ∧
    (shown = some t →
      handleStateChange d st shown (.targetElementChanged (some h) prev) = some t ∧
      handleStateChange d st shown (.targetElementChanged (some h) prev) ≠ some h) := by
  have hcond : (!st.treeSelectionActive || st.treeSelectedElement = some h) = false := by
    simp [hactive, hsel, hne]
  have hmain : handleStateChange d st shown (.targetElementChanged (some h) prev) = shown := by
    simp [handleStateChange, hcond]
  refine ⟨hmain, fun hst => ⟨hmain.trans hst, ?_⟩⟩
  rw [hmain, hst]
  simp [hne]

/-- Witness for C2 at a concrete store state and hover event. -/
theorem tree_selection_precedence_witness :
    handleStateChange exDom
      { treeSelectionActive := true, treeSelectedElement := some [0] }
      (some [0]) (.targetElementChanged (some [0, 0]) none) = some [0] :=
  (tree_selection_precedence exDom
    { treeSelectionActive := true, treeSelectedElement := some [0] }
    (some [0]) [0] [0, 0] none rfl rfl (by decide)).2 rfl |>.1

/-- Claim C4 (amended): the overlay rectangle computed by
`calculatePosition` always lies fully inside the viewport; the tooltip
position computed by `calculateTooltipPosition` lies fully inside the
viewport provided the viewport is at least the tooltip size plus twice
the margin in each dimension (the original claim fails for tooltips
larger than that; see the counterexample). -/
theorem positioning_within_viewport (offset vw vh margin tw th : ℚ)
    (targetRect overlayRect : Rect)
    (hm : 0 ≤ margin) (hw : tw + 2 * margin ≤ vw) (hh : th + 2 * margin ≤ vh) :
    (0 ≤ (calculatePosition offset vw vh targetRect).left ∧
     0 ≤ (calculatePosition offset vw vh targetRect).top ∧
     (calculatePosition offset vw vh targetRect).left +
       (calculatePosition offset vw vh targetRect).width ≤ vw ∧
     (calculatePosition offset vw vh targetRect).top +
       (calculatePosition offset vw vh targetRect).height ≤ vh) ∧
    (0 ≤ (calculateTooltipPosition margin vw vh overlayRect tw th).left ∧
     0 ≤ (calculateTooltipPosition margin vw vh overlayRect tw th).top ∧
     (calculateTooltipPosition margin vw vh overlayRect tw th).left + tw ≤ vw ∧
     (calculateTooltipPosition margin vw vh overlayRect tw th).top + th ≤ vh) := by
  constructor
  · dsimp only [calculatePosition]
    refine ⟨le_max_left _ _, le_max_left _ _, ?_, ?_⟩
    · have h1 : min (targetRect.width + offset * 2)
          (vw - max 0 (min (targetRect.left - offset)
            (vw - (targetRect.width + offset * 2)))) ≤
          vw - max 0 (min (targetRect.left - offset)
            (vw - (targetRect.width + offset * 2))) := min_le_right _ _
      linarith
    · have h1 : min (targetRect.height + offset * 2)
          (vh - max 0 (min (targetRect.top - offset)
            (vh - (targetRect.height + offset * 2)))) ≤
          vh - max 0 (min (targetRect.top - offset)
            (vh - (targetRect.height + offset * 2))) := min_le_right _ _
      linarith
  · dsimp only [calculateTooltipPosition]
    split
    next p hp =>
      have hpred := List.find?_some hp
      simp only [isPositionWithinViewport, decide_eq_true_eq] at hpred
      obtain ⟨h1, h2, h3, h4⟩ := hpred
      exact ⟨by linarith, by linarith, by linarith, by linarith⟩
    next hp =>
      constructor
      · exact le_trans hm (le_max_left _ _)
      constructor
      · exact le_trans hm (le_max_left _ _)
      constructor
      · have h1 : max margin (min
            (overlayRect.left + overlayRect.width / 2 - tw / 2)
            (vw - tw - margin)) ≤ vw - tw - margin :=
          max_le (by linarith) (min_le_right _ _)
        linarith
      · have h1 : max margin (min (overlayRect.bottom + margin)
            (vh - th - margin)) ≤ vh - th - margin :=
          max_le (by linarith) (min_le_right _ _)
        linarith

/-- Witness for C4 (amended) at concrete rectangles and viewport. -/
theorem positioning_within_viewport_witness :
    (0 ≤ (calculatePosition 6 800 600 ⟨10, 20, 110, 120, 100, 100⟩).left ∧
     0 ≤ (calculatePosition 6 800 600 ⟨10, 20, 110, 120, 100, 100⟩).top ∧
     (calculatePosition 6 800 600 ⟨10, 20, 110, 120, 100, 100⟩).left +
       (calculatePosition 6 800 600 ⟨10, 20, 110, 120, 100, 100⟩).width ≤ 800 ∧
     (calculatePosition 6 800 600 ⟨10, 20, 110, 120, 100, 100⟩).top +
       (calculatePosition 6 800 600 ⟨10, 20, 110, 120, 100, 100⟩).height ≤ 600) ∧
    (0 ≤ (calculateTooltipPosition 10 800 600 ⟨4, 14, 116, 126, 112, 112⟩ 100 50).left ∧
     0 ≤ (calculateTooltipPosition 10 800 600 ⟨4, 14, 116, 126, 112, 112⟩ 100 50).top ∧
     (calculateTooltipPosition 10 800 600 ⟨4, 14, 116, 126, 112, 112⟩ 100 50).left + 100 ≤ 800 ∧
     (calculateTooltipPosition 10 800 600 ⟨4, 14, 116, 126, 112, 112⟩ 100 50).top + 50 ≤ 600) :=
  positioning_within_viewport 6 800 600 10 100 50
    ⟨10, 20, 110, 120, 100, 100⟩ ⟨4, 14, 116, 126, 112, 112⟩
    (by norm_num) (by norm_num) (by norm_num)

/-- Claim C4 counterexample: in a 400×400 viewport (far larger than the
minimum overlay size) a 500-pixel-wide tooltip for a 50×50 target at the
origin is placed at `left = 10`, so `left + width = 510 > 400`: the
computed tooltip rectangle extends beyond the viewport. -/
theorem positioning_counterexample :
    ¬ ((calculateTooltipPosition 10 400 400
        ⟨-6, -6, 56, 56, 62, 62⟩ 500 50).left + 500 ≤ 400) := by
  norm_num [calculateTooltipPosition, isPositionWithinViewport, List.find?]

/-- Claim C5 (amended): the element/flag mutators
(`setAltPressed`, `setShiftPressed`, `setTreeSelectionActive`,
`setTreeSelectedElement`, `setKeyboardSelectedElement`,
`setCurrentTargetElement`, `setHierarchicalTooltipVisible`) notify
exactly when the stored value changes; `updateMousePosition` notifies
unconditionally without comparing values, and
`setKeyboardNavigationActive` never notifies. -/
theorem mutators_notification (s : DevtoolsState) (x y : ℤ) (b : Bool)
    (e : Option Path) :
    ((s.setAltPressed b).2 =
      if s.altPressed = b then [] else [.altKeyChanged b]) ∧
    ((s.setShiftPressed b).2 =
      if s.shiftPressed = b then [] else [.shiftKeyChanged b]) ∧
    ((s.setTreeSelectionActive b).2 =
      if s.treeSelectionActive = b then [] else [.treeSelectionActiveChanged b]) ∧
    ((s.setTreeSelectedElement e).2 =
      if s.treeSelectedElement = e then [] else [.treeSelectionChanged e]) ∧
    ((s.setKeyboardSelectedElement e).2 =
      if s.keyboardSelectedElement = e then []
      else [.keyboardSelectionChanged e s.keyboardSelectedElement]) ∧
    ((s.setCurrentTargetElement e).2 =
      if s.currentTargetElement = e then []
      else [.targetElementChanged e s.currentTargetElement]) ∧
    ((s.setHierarchicalTooltipVisible b).2 =
      if s.hierarchicalTooltipVisible = b then []
      else [.hierarchicalTooltipVisibilityChanged b]) ∧
    ((s.updateMousePosition x y).2 = [.mousePositionChanged x y]) ∧
    ((s.setKeyboardNavigationActive b).2 = []) := by
  refine ⟨?_, ?_, ?_, ?_, ?_, ?_, ?_, rfl, rfl⟩
  · by_cases h : s.altPressed = b <;> simp [DevtoolsState.setAltPressed, h]
  · by_cases h : s.shiftPressed = b <;> simp [DevtoolsState.setShiftPressed, h]
  · by_cases h : s.treeSelectionActive = b <;>
      simp [DevtoolsState.setTreeSelectionActive, h]
  · by_cases h : s.treeSelectedElement = e <;>
      simp [DevtoolsState.setTreeSelectedElement, h]
  · by_cases h : s.keyboardSelectedElement = e <;>
      simp [DevtoolsState.setKeyboardSelectedElement, h]
  · by_cases h : s.currentTargetElement = e <;>
      simp [DevtoolsState.setCurrentTargetElement, h]
  · by_cases h : s.hierarchicalTooltipVisible = b <;>
      simp [DevtoolsState.setHierarchicalTooltipVisible, h]

/-- Claim C5 counterexample: calling `updateMousePosition` with the current
position (the initial `(0, 0)`) still notifies observers, and
`setKeyboardNavigationActive` changes the flag without notifying anyone —
so it is not the case that every mutator compares old and new value and
notifies exactly on change. -/
theorem mutators_notification_counterexample :
    ({} : DevtoolsState).mouseX = 0 ∧ ({} : DevtoolsState).mouseY = 0 ∧
    (DevtoolsState.updateMousePosition {} 0 0).2 ≠ [] ∧
    ({} : DevtoolsState).keyboardNavigationActive = false ∧
    (DevtoolsState.setKeyboardNavigationActive {} true).1.keyboardNavigationActive = true ∧
    (DevtoolsState.setKeyboardNavigationActive {} true).2 = [] := by
  decide

theorem notifyObservers_shift {σ ε : Type} (obs : List (Observer σ ε))
    (event : Notification) (w : σ) (logs : List ε) :
    obs.foldl
      (fun acc callback =>
        match callback event acc.1 with
        | .ok w2 => (w2, acc.2)
        | .error e => (acc.1, acc.2 ++ [e]))
      (w, logs) =
    ((notifyObservers obs event w).1, logs ++ (notifyObservers obs event w).2) := by
  induction obs generalizing w logs with
  | nil => simp [notifyObservers]
  | cons cb rest ih =>
    simp only [notifyObservers, List.foldl_cons]
    cases hcb : cb event w with
    | ok w2 =>
      dsimp only
      rw [ih w2 logs, ih w2 []]
      simp
    | error e =>
      dsimp only
      simp only [List.nil_append]
      rw [ih w (logs ++ [e]), ih w [e]]
      simp

theorem notifyObservers_append {σ ε : Type} (l1 l2 : List (Observer σ ε))
    (event : Notification) (w : σ) :
    notifyObservers (l1 ++ l2) event w =
      ((notifyObservers l2 event (notifyObservers l1 event w).1).1,
       (notifyObservers l1 event w).2 ++
         (notifyObservers l2 event (notifyObservers l1 event w).1).2) := by
  unfold notifyObservers
  rw [List.foldl_append]
  have h1 := notifyObservers_shift l2 event
    (notifyObservers l1 event w).1 (notifyObservers l1 event w).2
  unfold notifyObservers at h1
  exact h1

/-- Claim C6: an observer that throws during notification has its exception
caught and recorded in the log at the notification site (the embedded
`notify` is total, so the call itself never throws), the state reached by
the observers before it is kept, and every remaining observer is still
invoked exactly as it would have been. -/
theorem observer_failure_isolation {σ ε : Type}
    (obs1 obs2 : List (Observer σ ε)) (cb : Observer σ ε)
    (event : Notification) (w : σ) (e : ε)
    (hthrow : ∀ s, cb event s = .error e) :
    notifyObservers (obs1 ++ cb :: obs2) event w =
      ((notifyObservers obs2 event (notifyObservers obs1 event w).1).1,
       (notifyObservers obs1 event w).2 ++
         e :: (notifyObservers obs2 event (notifyObservers obs1 event w).1).2) := by
  rw [notifyObservers_append]
  have hcons : notifyObservers (cb :: obs2) event (notifyObservers obs1 event w).1 =
      ((notifyObservers obs2 event (notifyObservers obs1 event w).1).1,
       e :: (notifyObservers obs2 event (notifyObservers obs1 event w).1).2) := by
    unfold notifyObservers
    rw [List.foldl_cons]
    rw [hthrow]
    have h1 := notifyObservers_shift obs2 event (notifyObservers obs1 event w).1 [e]
    unfold notifyObservers at h1
    simpa using h1
  rw [hcons]

/-- Witness for C6: the middle observer throws; the first observer's state
update survives, the error is logged, and the last observer still runs. -/
theorem observer_failure_isolation_witness :
    notifyObservers
      ([fun _ n => Except.ok (n + 1)] ++
        (fun _ _ => Except.error "boom") :: [fun _ n => Except.ok (n * 2)])
      Notification.resetNotif (3 : Nat) = (8, ["boom"]) :=
  (observer_failure_isolation [fun _ n => Except.ok (n + 1)]
    [fun _ n => Except.ok (n * 2)] (fun _ _ => Except.error "boom")
    Notification.resetNotif 3 "boom" (fun _ => rfl)).trans rfl

/-- Claim C7: rebuilding with an element set carrying the same content
fingerprint as the previous build performs no second rebuild — the state,
including the tree with its expansion flags and the selected node id, is
returned untouched. -/
theorem buildTreeData_idempotent (d d2 : Dom) (s : TreeViewState)
    (hsame : generateComponentsHash (getAllComponents d2) =
      generateComponentsHash (getAllComponents d)) :
    buildTreeData d2 (buildTreeData d s).1 = ((buildTreeData d s).1, false) ∧
    (buildTreeData d2 (buildTreeData d s).1).1.treeData =
      (buildTreeData d s).1.treeData ∧
    (buildTreeData d2 (buildTreeData d s).1).1.selectedNodeId =
      (buildTreeData d s).1.selectedNodeId := by
  obtain ⟨ha, hb⟩ : (buildTreeData d s).1.lastComponentsHash =
      some (generateComponentsHash (getAllComponents d)) ∧
      (buildTreeData d s).1.treeData.isSome := by
    simp only [buildTreeData]
    split
    next hcond => exact ⟨hcond.1, hcond.2⟩
    next hcond => simp
  have h2 : buildTreeData d2 (buildTreeData d s).1 =
      ((buildTreeData d s).1, false) := by
    generalize (buildTreeData d s).1 = s1 at ha hb ⊢
    simp only [buildTreeData]
    rw [if_pos ⟨by rw [hsame]; exact ha, hb⟩]
  exact ⟨h2, by rw [h2], by rw [h2]⟩

/-- Witness for C7: a second build over the unchanged example document
reports no rebuild. -/
theorem buildTreeData_idempotent_witness :
    buildTreeData exDom (buildTreeData exDom {}).1 =
      ((buildTreeData exDom {}).1, false) :=
  (buildTreeData_idempotent exDom exDom {} rfl).1

/-- Claim C8: for every resize gesture (any handle direction, any pointer
position) in a viewport of at least 300×400, the resulting panel is never
smaller than the 300×400 minimum. -/
theorem resize_respects_minimum (vw vh : ℚ) (rs : ResizeState)
    (clientX clientY : ℚ) (hvw : 300 ≤ vw) (hvh : 400 ≤ vh) :
    300 ≤ (handleResize vw vh rs clientX clientY).width ∧
    400 ≤ (handleResize vw vh rs clientX clientY).height := by
  dsimp only [handleResize]
  exact ⟨le_max_left _ _, le_max_left _ _⟩

/-- Witness for C8: dragging the bottom-right handle far past the minimum
still leaves the panel at least 300×400. -/
theorem resize_respects_minimum_witness :
    300 ≤ (handleResize 800 600
      { startX := 500, startY := 500, startWidth := 400, startHeight := 450,
        startLeft := 50, startTop := 20,
        direction := { left := false, right := true, top := false, bottom := true } }
      0 0).width ∧
    400 ≤ (handleResize 800 600
      { startX := 500, startY := 500, startWidth := 400, startHeight := 450,
        startLeft := 50, startTop := 20,
        direction := { left := false, right := true, top := false, bottom := true } }
      0 0).height :=
  resize_respects_minimum 800 600
    { startX := 500, startY := 500, startWidth := 400, startHeight := 450,
      startLeft := 50, startTop := 20,
      direction := { left := false, right := true, top := false, bottom := true } }
    0 0 (by norm_num) (by norm_num)

/-- Claim C10: sibling navigation degrades deterministically when the
current element is absent from the computed sibling list: next-sibling
yields the first element, previous-sibling yields the last element, and
both yield `none` for an empty list (the embedded functions are total, so
no exception is possible). -/
theorem sibling_navigation_fallback (c : Path) (siblings : List Path) :
    (siblings = [] →
      getNextSibling c siblings = none ∧ getPreviousSibling c siblings = none) ∧
    (siblings ≠ [] → c ∉ siblings →
      getNextSibling c siblings = siblings.head? ∧
      getPreviousSibling c siblings = siblings.getLast?) := by
  constructor
  · intro h
    subst h
    exact ⟨rfl, rfl⟩
  · intro hne hnm
    have hidx : jsIndexOf siblings c = none := by
      simp only [jsIndexOf, List.findIdx?_eq_none_iff]
      intro x hx
      simp only [decide_eq_false_iff_not]
      intro hxc
      exact hnm (hxc ▸ hx)
    have hempty : siblings.isEmpty = false := by
      simpa [List.isEmpty_iff] using hne
    constructor
    · simp only [getNextSibling, hempty, Bool.false_eq_true, if_false, hidx]
      exact (List.head?_eq_getElem? siblings).symm
    · simp only [getPreviousSibling, hempty, Bool.false_eq_true, if_false, hidx]
      exact (List.getLast?_eq_getElem? siblings).symm

/-- Witness for C10 at a concrete stale element and sibling list. -/
theorem sibling_navigation_fallback_witness :
    getNextSibling [5] [[0], [1]] = some [0] ∧
    getPreviousSibling [5] [[0], [1]] = some [1] := by
  have h := (sibling_navigation_fallback [5] [[0], [1]]).2 (by decide) (by decide)
  exact ⟨h.1.trans rfl, h.2.trans rfl⟩

-- ===========================================================================
-- Supporting lemmas on the DOM model and the discovery traversal
-- ===========================================================================

theorem mem_ancestorPaths {q p : Path} :
    q ∈ ancestorPaths p ↔ q ≠ [] ∧ q.length < p.length ∧ p.take q.length = q := by
  unfold ancestorPaths
  simp only [List.mem_filter, List.mem_map, List.mem_reverse, List.mem_range,
    Bool.not_eq_true', List.isEmpty_eq_false]
  constructor
  · rintro ⟨⟨k, hk, rfl⟩, hne⟩
    have hlen : (p.take k).length = k := by
      simp [List.length_take]
      omega
    exact ⟨hne, by omega, by rw [hlen]⟩
  · rintro ⟨hne, hlt, htake⟩
    exact ⟨⟨q.length, hlt, htake⟩, hne⟩

theorem find?_mono {α : Type} {l : List α} {p q : α → Bool} {a : α}
    (himp : ∀ x, q x = true → p x = true)
    (hfind : l.find? p = some a) (hq : q a = true) :
    l.find? q = some a := by
  induction l with
  | nil => simp at hfind
  | cons x rest ih =>
    cases hpx : p x with
    | true =>
      rw [List.find?_cons_of_pos _ hpx] at hfind
      have hax : x = a := Option.some.inj hfind
      subst hax
      exact List.find?_cons_of_pos _ hq
    | false =>
      have hqx : q x = false := by
        cases hqx2 : q x with
        | true => rw [himp x hqx2] at hpx; exact absurd hpx (by simp)
        | false => rfl
      rw [List.find?_cons_of_neg _ (by simp [hpx])] at hfind
      rw [List.find?_cons_of_neg _ (by simp [hqx])]
      exact ih hfind

theorem find?_takeWhile_false {α : Type} [DecidableEq α] {l : List α}
    {p : α → Bool} {a : α} (hfind : l.find? p = some a) :
    ∀ x ∈ l.takeWhile (fun y => y ≠ a), p x = false := by
  induction l with
  | nil => simp at hfind
  | cons x rest ih =>
    cases hpx : p x with
    | true =>
      rw [List.find?_cons_of_pos _ hpx] at hfind
      have hax : x = a := Option.some.inj hfind
      subst hax
      intro y hy
      rw [List.takeWhile_cons_of_neg (by simp)] at hy
      simp at hy
    | false =>
      rw [List.find?_cons_of_neg _ (by simp [hpx])] at hfind
      have hxa : x ≠ a := by
        intro heq
        have hpa := List.find?_some hfind
        rw [heq, hpa] at hpx
        exact absurd hpx (by simp)
      intro y hy
      rw [List.takeWhile_cons_of_pos (by simp [hxa])] at hy
      rcases List.mem_cons.mp hy with h1 | h1
      · subst h1; exact hpx
      · exact ih hfind y h1

theorem getSubtree?_append {d : Dom} {q r : Path}
    (hq : q ≠ []) (hr : r ≠ []) :
    getSubtree? d (q ++ r) =
      (getSubtree? d q).bind (fun t => getSubtree? t.children r) := by
  induction q generalizing d with
  | nil => exact absurd rfl hq
  | cons i qrest ih =>
    cases qrest with
    | nil =>
      cases r with
      | nil => exact absurd rfl hr
      | cons y yrest =>
        simp only [List.cons_append, List.nil_append, getSubtree?]
        cases d[i]? with
        | none => rfl
        | some t => rfl
    | cons j qrest2 =>
      simp only [List.cons_append, getSubtree?]
      cases d[i]? with
      | none => rfl
      | some u =>
        have := ih (d := u.children) (by simp)
        simpa using this

theorem mem_preorderForest_of_mem_preorderTree {ts : List DomTree}
    {b : Path} {g j : Nat} {t : DomTree} {q : Path}
    (hget : ts[j]? = some t)
    (hmem : q ∈ preorderTree t (b ++ [g + j])) :
    q ∈ preorderForest ts b g := by
  induction ts generalizing j g with
  | nil => simp at hget
  | cons t0 rest ih =>
    cases j with
    | zero =>
      have ht0 : t0 = t := by simpa using hget
      subst ht0
      simp only [preorderForest, List.mem_append]
      left
      simpa using hmem
    | succ j1 =>
      have hget2 : rest[j1]? = some t := by simpa using hget
      simp only [preorderForest, List.mem_append]
      right
      apply ih hget2
      have : g + 1 + j1 = g + (j1 + 1) := by omega
      rw [this]
      exact hmem

theorem self_mem_preorderTree (t : DomTree) (p : Path) :
    p ∈ preorderTree t p := by
  cases t with
  | node a cs => simp [preorderTree]

theorem mem_preorderForest_of_getSubtree? {q : Path} :
    ∀ {ts : List DomTree} {b : Path} {t : DomTree},
      getSubtree? ts q = some t → (b ++ q) ∈ preorderForest ts b 0 := by
  induction q with
  | nil => intro ts b t h; simp [getSubtree?] at h
  | cons i qrest ih =>
    intro ts b t h
    cases qrest with
    | nil =>
      simp only [getSubtree?] at h
      apply mem_preorderForest_of_mem_preorderTree (j := i) (g := 0) h
      simp only [Nat.zero_add]
      exact self_mem_preorderTree t (b ++ [i])
    | cons j qrest2 =>
      simp only [getSubtree?] at h
      match hu : ts[i]? with
      | none => rw [hu] at h; simp at h
      | some u =>
        rw [hu] at h
        have hrec := ih (b := b ++ [i]) h
        have hlift : (b ++ [i] ++ (j :: qrest2)) ∈ preorderTree u (b ++ [i]) := by
          cases u with
          | node a cs =>
            simp only [preorderTree, List.mem_cons]
            right
            simpa [DomTree.children] using hrec
        have := mem_preorderForest_of_mem_preorderTree (j := i) (g := 0) hu
          (by simpa using hlift)
        simpa using this

theorem mem_preorder_of_valid {d : Dom} {p : Path}
    (hv : validPath d p = true) : p ∈ preorder d := by
  unfold validPath at hv
  match hs : getSubtree? d p with
  | none => rw [hs] at hv; simp at hv
  | some t =>
    have := mem_preorderForest_of_getSubtree? (b := []) hs
    simpa [preorder] using this

theorem mem_strictDescendants_of_getSubtree? {d : Dom} {P r : Path}
    {a : ElemAttrs} {cs : List DomTree} {t : DomTree}
    (hP : getSubtree? d P = some (.node a cs))
    (hr : getSubtree? cs r = some t) :
    (P ++ r) ∈ strictDescendants d P := by
  unfold strictDescendants
  rw [hP]
  exact mem_preorderForest_of_getSubtree? hr

theorem hasSourcePath_of_hasAllProperties {d : Dom} {p : Path}
    (h : hasAllProperties d p = true) : hasSourcePath d p = true := by
  simp only [hasAllProperties, Bool.and_eq_true] at h
  obtain ⟨⟨h1, _⟩, _⟩ := h
  unfold truthy at h1
  unfold hasSourcePath
  unfold getSourcePath at h1
  match ha : attrsAt d p with
  | none => rw [ha] at h1; simp at h1
  | some a =>
    rw [ha] at h1
    simp only [Option.some_bind] at h1
    match hsp : a.sourcePath with
    | none => rw [hsp] at h1; simp at h1
    | some s => simp [hsp]

theorem self_mem_traverseDF {d : Dom} {p : Path}
    (htag : hasSourcePath d p = true) : p ∈ traverseDF d p := by
  rw [traverseDF_unfold]
  simp [htag]

theorem tagged_of_mem_traverseDFAux {d : Dom} :
    ∀ {fuel : Nat} {p x : Path}, x ∈ traverseDFAux d fuel p →
      hasSourcePath d x = true := by
  intro fuel
  induction fuel with
  | zero => intro p x h; simp [traverseDFAux] at h
  | succ f ih =>
    intro p x h
    simp only [traverseDFAux, List.mem_append] at h
    rcases h with h | h
    · split at h
      · next htag => rw [List.mem_singleton.mp h]; exact htag
      · simp at h
    · rw [List.mem_flatten] at h
      obtain ⟨l, hl, hx⟩ := h
      rw [List.mem_map] at hl
      obtain ⟨q, _, rfl⟩ := hl
      exact ih hx

theorem tagged_of_mem_traverseDF {d : Dom} {p x : Path}
    (h : x ∈ traverseDF d p) : hasSourcePath d x = true :=
  tagged_of_mem_traverseDFAux h

theorem tagged_of_mem_findChildComponents {d : Dom} {p q : Path}
    (h : q ∈ findChildComponents d p) : hasSourcePath d q = true := by
  unfold findChildComponents at h
  have h2 := (List.mem_filter.mp h).2
  rw [Bool.and_eq_true] at h2
  exact h2.1

theorem mem_traverseDF_trans {d : Dom} :
    ∀ (n : Nat) (p P c : Path), heightForest d + 1 - p.length ≤ n →
      P ∈ traverseDF d p → c ∈ findChildComponents d P →
      c ∈ traverseDF d p := by
  intro n
  induction n with
  | zero =>
    intro p P c hn hP _
    have hlong : heightForest d < p.length := by omega
    rw [traverseDF_unfold, hasSourcePath_eq_false_of_long hlong,
      findChildComponents_eq_nil_of_long hlong] at hP
    simp at hP
  | succ n ih =>
    intro p P c hn hP hc
    rw [traverseDF_unfold] at hP
    rw [traverseDF_unfold]
    simp only [List.mem_append] at hP ⊢
    rcases hP with hP | hP
    · have hPp : P = p := by
        split at hP
        · exact List.mem_singleton.mp hP
        · simp at hP
      subst hPp
      right
      rw [List.mem_flatten]
      refine ⟨traverseDF d c, List.mem_map_of_mem _ hc, ?_⟩
      exact self_mem_traverseDF (tagged_of_mem_findChildComponents hc)
    · right
      rw [List.mem_flatten] at hP ⊢
      obtain ⟨l, hl, hPl⟩ := hP
      rw [List.mem_map] at hl
      obtain ⟨q, hq, rfl⟩ := hl
      have hqlen := mem_findChildComponents_length hq
      refine ⟨traverseDF d q, List.mem_map_of_mem _ hq, ?_⟩
      exact ih q P c (by omega) hPl hc

theorem mem_getAllComponentsInOrder_of_mem_top {d : Dom} {t x : Path}
    (ht : t ∈ findTopLevelComponents d) (hx : x ∈ traverseDF d t) :
    x ∈ getAllComponentsInOrder d := by
  unfold getAllComponentsInOrder
  rw [List.mem_flatten]
  exact ⟨traverseDF d t, List.mem_map_of_mem _ ht, hx⟩

theorem mem_getAllComponentsInOrder {d : Dom} :
    ∀ (n : Nat) (c : Path), c.length ≤ n →
      hasSourcePath d c = true → validPath d c = true →
      c ∈ getAllComponentsInOrder d := by
  intro n
  induction n with
  | zero =>
    intro c hn htag hv
    have hc : c = [] := List.length_eq_zero.mp (by omega)
    subst hc
    simp [validPath, getSubtree?] at hv
  | succ n ih =>
    intro c hn htag hv
    match hpar : findParentComponent d c with
    | none =>
      have htop : c ∈ findTopLevelComponents d := by
        unfold findTopLevelComponents
        rw [List.mem_filter]
        refine ⟨mem_preorder_of_valid hv, ?_⟩
        rw [Bool.and_eq_true]
        refine ⟨htag, ?_⟩
        rw [List.all_eq_true]
        intro r hr
        unfold findParentComponent at hpar
        rw [List.find?_eq_none] at hpar
        simp [hpar r hr]
      exact mem_getAllComponentsInOrder_of_mem_top htop (self_mem_traverseDF htag)
    | some P =>
      have hPanc : P ∈ ancestorPaths c :=
        List.mem_of_find?_eq_some hpar
      have hPtag : hasSourcePath d P = true := List.find?_some hpar
      obtain ⟨hPne, hPlt, hPtake⟩ := mem_ancestorPaths.mp hPanc
      have hsplit : c = P ++ c.drop P.length := by
        conv_lhs => rw [← List.take_append_drop P.length c]
        rw [hPtake]
      have hrne : c.drop P.length ≠ [] := by
        intro hcon
        have := congrArg List.length hcon
        simp only [List.length_drop, List.length_nil] at this
        omega
      unfold validPath at hv
      match hsc : getSubtree? d c with
      | none => rw [hsc] at hv; simp at hv
      | some tc =>
        have hcomp : getSubtree? d (P ++ c.drop P.length) =
            (getSubtree? d P).bind (fun t => getSubtree? t.children (c.drop P.length)) :=
          getSubtree?_append hPne hrne
        rw [← hsplit, hsc] at hcomp
        match hsP : getSubtree? d P with
        | none => rw [hsP] at hcomp; simp at hcomp
        | some u =>
          rw [hsP] at hcomp
          simp only [Option.some_bind] at hcomp
          have hPvalid : validPath d P = true := by simp [validPath, hsP]
          have hPmem : P ∈ getAllComponentsInOrder d :=
            ih P (by omega) hPtag hPvalid
          have hcchild : c ∈ findChildComponents d P := by
            unfold findChildComponents
            rw [List.mem_filter]
            constructor
            · cases u with
              | node a cs =>
                have := mem_strictDescendants_of_getSubtree? hsP
                  (Eq.symm hcomp ▸ rfl : getSubtree? cs (c.drop P.length) = some tc)
                rwa [← hsplit] at this
            · rw [Bool.and_eq_true]
              refine ⟨htag, ?_⟩
              unfold isDirectChildOf
              rw [List.all_eq_true]
              intro r hr
              have := find?_takeWhile_false hpar r hr
              simp [this]
          obtain ⟨l, hl, hPl⟩ := List.mem_flatten.mp hPmem
          obtain ⟨t, ht, rfl⟩ := List.mem_map.mp hl
          exact mem_getAllComponentsInOrder_of_mem_top ht
            (mem_traverseDF_trans (heightForest d + 1) t P c (by omega) hPl hcchild)

/-- Claim C3: keyboard traversal cycles at tree boundaries: Up from a root
(no component ancestor) yields the last element of the full depth-first
component order, Down from a leaf (no component children) yields the
first element of that order (both orders are non-empty, containing the
current element), and Left/Right move through the computed sibling list
by `(i ± 1) mod n` from the current index `i`. -/
theorem keyboard_traversal_cycles (d : Dom) (c : Path)
    (hv : validPath d c = true) (htag : hasSourcePath d c = true) :
    (findParentComponent d c = none →
      getAllComponentsInOrder d ≠ [] ∧
      navigateToParent d c = (getAllComponentsInOrder d).getLast?) ∧
    (findChildComponents d c = [] →
      getAllComponentsInOrder d ≠ [] ∧
      navigateToFirstChild d c = (getAllComponentsInOrder d).head?) ∧
    (∀ i, jsIndexOf (getAllSiblingsIncludingCurrent d c) c = some i →
      navigateToNextSibling d c =
        (getAllSiblingsIncludingCurrent d c)[(i + 1) %
          (getAllSiblingsIncludingCurrent d c).length]? ∧
      navigateToPreviousSibling d c =
        (getAllSiblingsIncludingCurrent d c)[(i +
          (getAllSiblingsIncludingCurrent d c).length - 1) %
          (getAllSiblingsIncludingCurrent d c).length]?) := by
  have hmem : c ∈ getAllComponentsInOrder d :=
    mem_getAllComponentsInOrder c.length c le_rfl htag hv
  have hne : getAllComponentsInOrder d ≠ [] := List.ne_nil_of_mem hmem
  refine ⟨?_, ?_, ?_⟩
  · intro hroot
    exact ⟨hne, by simp [navigateToParent, hroot, findDeepestComponent]⟩
  · intro hleaf
    exact ⟨hne, by simp [navigateToFirstChild, hleaf, findFirstComponent]⟩
  · intro i hi
    match hsibs : getAllSiblingsIncludingCurrent d c with
    | [] =>
      rw [hsibs] at hi
      simp [jsIndexOf] at hi
    | s :: rest =>
      rw [hsibs] at hi
      constructor
      · simp only [navigateToNextSibling, getNextSibling, hsibs, hi]
        rfl
      · simp only [navigateToPreviousSibling, getPreviousSibling, hsibs, hi]
        rfl

/-- Witness for C3 on the two-root example document: Up from root `A`
cycles to the deepest component `D`, Down from leaf `B` cycles to the
first component `A`, and Left/Right from `A` wrap around the root sibling
set `{A, D}`. -/
theorem keyboard_traversal_cycles_witness :
    navigateToParent exDom2 [0] = some [1] ∧
    navigateToFirstChild exDom2 [0, 0] = some [0] ∧
    navigateToNextSibling exDom2 [0] = some [1] ∧
    navigateToPreviousSibling exDom2 [0] = some [1] := by
  obtain ⟨h1, _, h3⟩ := keyboard_traversal_cycles exDom2 [0] (by decide) (by decide)
  obtain ⟨_, h2, _⟩ := keyboard_traversal_cycles exDom2 [0, 0] (by decide) (by decide)
  refine ⟨?_, ?_, ?_, ?_⟩
  · rw [(h1 (by decide)).2]; decide
  · rw [(h2 (by decide)).2]; decide
  · rw [(h3 0 (by decide)).1]; decide
  · rw [(h3 0 (by decide)).2]; decide

/-- Claim C9 (amended): `getAllComponents` returns exactly the elements
whose three source-metadata attributes are all present and non-empty:
every returned component satisfies `hasAllProperties`, and every rendered
element satisfying it is returned.  (The original claim fails for the
traversal-level discovery `findTopLevelComponents`, which keys on the
mere presence of the source-path property; see the counterexample.) -/
theorem discovery_inspectable_iff (d : Dom) (p : Path)
    (hv : validPath d p = true) :
    (∀ ci ∈ getAllComponents d, hasAllProperties d ci.elem = true) ∧
    (hasAllProperties d p = true ↔
      p ∈ (getAllComponents d).map ComponentInfo.elem) := by
  have hforward : ∀ ci ∈ getAllComponents d, hasAllProperties d ci.elem = true := by
    intro ci hci
    unfold getAllComponents at hci
    rw [List.mem_map] at hci
    obtain ⟨e, he, rfl⟩ := hci
    exact (List.mem_filter.mp he).2
  refine ⟨hforward, ?_, ?_⟩
  · intro hall
    unfold getAllComponents
    rw [List.map_map, List.mem_map]
    refine ⟨p, ?_, rfl⟩
    rw [List.mem_filter]
    exact ⟨mem_getAllComponentsInOrder p.length p le_rfl
      (hasSourcePath_of_hasAllProperties hall) hv, hall⟩
  · intro hmem
    rw [List.mem_map] at hmem
    obtain ⟨ci, hci, rfl⟩ := hmem
    exact hforward ci hci

/-- Witness for C9 (amended): on the example document every discovered
component is fully attributed and the fully attributed element `[0]` is
discovered. -/
theorem discovery_inspectable_iff_witness :
    hasAllProperties exDom [0] = true ∧
    [0] ∈ (getAllComponents exDom).map ComponentInfo.elem := by
  have h := discovery_inspectable_iff exDom [0] (by decide)
  exact ⟨by decide, h.2.mp (by decide)⟩

/-- Claim C9 counterexample: an element whose source-path property is
present but *empty* (and whose filename/line are absent) is still
discovered by the traversal-level discovery `findTopLevelComponents`
(and hence by keyboard navigation), although it does not have all three
attributes present and non-empty — discovery is keyed on presence of the
source-path property alone, not on the three-attribute invariant. -/
theorem discovery_counterexample :
    findTopLevelComponents exDomEmptyAttrs = [[0]] ∧
    hasAllProperties exDomEmptyAttrs [0] = false := by
  decide

-- ===========================================================================
-- Supporting lemmas on the hierarchy builder
-- ===========================================================================

theorem nodeMapLookup_spec {comps : List ComponentInfo} {e : Path} {j : Nat}
    (h : nodeMapLookup comps e = some j) :
    j < comps.length ∧ elemAt comps j = e := by
  unfold nodeMapLookup at h
  have hmem := List.mem_of_mem_getLast? h
  rw [List.mem_map] at hmem
  obtain ⟨x, hx, hx1⟩ := hmem
  rw [List.mem_filter] at hx
  obtain ⟨hxe, hxel⟩ := hx
  obtain ⟨k, ci⟩ := x
  have hk : k = j := hx1
  subst hk
  have hget : comps[k]? = some ci := List.mk_mem_enum_iff_getElem?.mp hxe
  have hlt : k < comps.length := by
    by_contra hge
    rw [List.getElem?_eq_none (by omega)] at hget
    exact absurd hget (by simp)
  refine ⟨hlt, ?_⟩
  unfold elemAt
  rw [hget]
  simpa using hxel

theorem parentIdxOf_spec {d : Dom} {comps : List ComponentInfo} {i j : Nat}
    (h : parentIdxOf d comps i = some j) :
    j < comps.length ∧
      ∃ ci, comps[i]? = some ci ∧
        findParentComponent d ci.elem = some (elemAt comps j) := by
  unfold parentIdxOf at h
  match hci : comps[i]? with
  | none => rw [hci] at h; simp at h
  | some ci =>
    rw [hci] at h
    dsimp only at h
    match hfp : findParentComponent d ci.elem with
    | none => rw [hfp] at h; simp at h
    | some P =>
      rw [hfp] at h
      obtain ⟨hjn, hel⟩ := nodeMapLookup_spec h
      exact ⟨hjn, ci, rfl, by rw [hel]; exact hfp⟩

theorem computeLevels_succ (par : Nat → Option Nat) (n : Nat) :
    computeLevels par (n + 1) = computeLevels par n ++
      [match par n with
       | none => 0
       | some j => (computeLevels par n).getD j 0 + 1] := by
  unfold computeLevels
  rw [List.range_succ, List.foldl_append]
  rfl

theorem computeLevels_length (par : Nat → Option Nat) (n : Nat) :
    (computeLevels par n).length = n := by
  induction n with
  | zero => rfl
  | succ n ih =>
    rw [computeLevels_succ]
    simp [ih]

theorem computeLevels_getD_stable (par : Nat → Option Nat) {i n m : Nat}
    (hin : i < n) (hnm : n ≤ m) :
    (computeLevels par m).getD i 0 = (computeLevels par n).getD i 0 := by
  induction m with
  | zero => omega
  | succ m ih =>
    by_cases hn : n = m + 1
    · subst hn; rfl
    · have hle : n ≤ m := by omega
      rw [computeLevels_succ]
      rw [List.getD_append _ _ _ _ (by rw [computeLevels_length]; omega)]
      exact ih hle

theorem computeLevels_getD_char (par : Nat → Option Nat) {i n : Nat}
    (hin : i < n) :
    (computeLevels par n).getD i 0 =
      match par i with
      | none => 0
      | some j => (if j < i then (computeLevels par n).getD j 0 else 0) + 1 := by
  have h1 : (computeLevels par n).getD i 0 = (computeLevels par (i + 1)).getD i 0 :=
    computeLevels_getD_stable par (by omega) (by omega)
  rw [h1, computeLevels_succ]
  have hlen : (computeLevels par i).length = i := computeLevels_length par i
  have h2 : ∀ v : Nat, (computeLevels par i ++ [v]).getD i 0 = v := by
    intro v
    rw [List.getD_eq_getElem?_getD]
    rw [List.getElem?_append_right (by omega)]
    simp [hlen]
  match hp : par i with
  | none =>
    simp only [hp]
    exact h2 0
  | some j =>
    simp only [hp]
    rw [h2]
    by_cases hj : j < i
    · rw [if_pos hj, computeLevels_getD_stable par (m := n) hj (by omega)]
    · rw [if_neg hj]
      have hzero : (computeLevels par i).getD j 0 = 0 := by
        rw [List.getD_eq_getElem?_getD, List.getElem?_eq_none (by omega)]
        rfl
      rw [hzero]

theorem buildHierarchy_node_spec {d : Dom} {comps : List ComponentInfo}
    {i : Nat} {bn : BNode}
    (h : (buildHierarchy d comps).1[i]? = some bn) :
    i < comps.length ∧ bn.elem = elemAt comps i ∧
      bn.parentIdx = parentIdxOf d comps i ∧
      bn.level = (computeLevels (parentIdxOf d comps) comps.length).getD i 0 ∧
      bn.children = List.insertionSort (idxLe comps)
        ((List.range comps.length).filter
          (fun k => parentIdxOf d comps k = some i)) := by
  unfold buildHierarchy at h
  simp only [List.getElem?_map] at h
  have hlt : i < comps.length := by
    by_contra hge
    rw [List.getElem?_eq_none (by simpa using by omega)] at h
    exact absurd h (by simp)
  rw [List.getElem?_range hlt] at h
  simp only [Option.map_some'] at h
  obtain rfl := (Option.some.inj h).symm
  exact ⟨hlt, rfl, rfl, rfl, rfl⟩

theorem buildHierarchy_node_exists {d : Dom} {comps : List ComponentInfo}
    {j : Nat} (hj : j < comps.length) :
    ∃ pn, (buildHierarchy d comps).1[j]? = some pn := by
  unfold buildHierarchy
  simp only [List.getElem?_map]
  rw [List.getElem?_range hj]
  exact ⟨_, rfl⟩

/-- Claim C1 (amended): for a duplicate-free list of inspectable components
in which every component's assigned parent occurs earlier in the list
(true of the discovery output, which lists ancestors before descendants),
`buildHierarchy` produces a forest in which every root has level 0, every
non-root node's parent is the nearest inspectable ancestor of its element
and its level is its parent's level plus one, the parent/child links are
mutually consistent, and siblings (and roots) are ordered by document
position.  (For arbitrary list orders the level clause fails; see the
counterexample.) -/
theorem hierarchy_builder_amended (d : Dom) (comps : List ComponentInfo)
    (hnd : (comps.map ComponentInfo.elem).Nodup)
    (hins : ∀ ci ∈ comps, hasAllProperties d ci.elem = true)
    (hord : ((List.range comps.length).all (fun i =>
        match parentIdxOf d comps i with
        | some j => decide (j < i)
        | none => true)) = true) :
    (∀ i bn, (buildHierarchy d comps).1[i]? = some bn →
      (bn.parentIdx = none → bn.level = 0) ∧
      (∀ j, bn.parentIdx = some j →
        ∃ pn, (buildHierarchy d comps).1[j]? = some pn ∧
          bn.level = pn.level + 1 ∧
          nearestInspectableAncestor d bn.elem = some pn.elem) ∧
      List.Pairwise (fun a b => pathLe a b = true)
        (bn.children.map (elemAt comps)) ∧
      (∀ k, k ∈ bn.children ↔
        k < comps.length ∧ parentIdxOf d comps k = some i)) ∧
    List.Pairwise (fun a b => pathLe a b = true)
      ((buildHierarchy d comps).2.map (elemAt comps)) := by
  have hordP : ∀ i j, parentIdxOf d comps i = some j → j < i := by
    intro i j hij
    by_cases hi : i < comps.length
    · have hall := List.all_eq_true.mp hord i (List.mem_range.mpr hi)
      rw [hij] at hall
      simpa using hall
    · exfalso
      unfold parentIdxOf at hij
      rw [List.getElem?_eq_none (by omega)] at hij
      simp at hij
  constructor
  · intro i bn hbn
    obtain ⟨hi, helem, hpar, hlev, hch⟩ := buildHierarchy_node_spec hbn
    refine ⟨?_, ?_, ?_, ?_⟩
    · intro hnone
      rw [hpar] at hnone
      rw [hlev, computeLevels_getD_char _ hi, hnone]
    · intro j hj
      rw [hpar] at hj
      have hjlt : j < i := hordP i j hj
      obtain ⟨hjn, ci, hci, hfp⟩ := parentIdxOf_spec hj
      obtain ⟨pn, hpn⟩ := buildHierarchy_node_exists (d := d) hjn
      obtain ⟨_, hpelem, _, hplev, _⟩ := buildHierarchy_node_spec hpn
      refine ⟨pn, hpn, ?_, ?_⟩
      · rw [hlev, computeLevels_getD_char _ hi, hj]
        dsimp only
        rw [if_pos hjlt, hplev]
      · have helemi : bn.elem = ci.elem := by
          rw [helem]
          unfold elemAt
          rw [hci]
          rfl
        have hcj : comps[j]? = some comps[j] := List.getElem?_eq_getElem hjn
        have helemj : elemAt comps j = comps[j].elem := by
          unfold elemAt
          rw [hcj]
          rfl
        have hq : hasAllProperties d (elemAt comps j) = true := by
          rw [helemj]
          exact hins comps[j] (List.getElem_mem hjn)
        rw [helemi, hpelem]
        exact find?_mono (fun x hx => hasSourcePath_of_hasAllProperties hx) hfp hq
    · rw [hch]
      have hs : List.Pairwise (idxLe comps)
          (List.insertionSort (idxLe comps)
            ((List.range comps.length).filter
              (fun k => parentIdxOf d comps k = some i))) :=
        List.sorted_insertionSort (idxLe comps) _
      exact List.Pairwise.map (elemAt comps) (fun a b hab => hab) hs
    · intro k
      rw [hch, List.mem_insertionSort, List.mem_filter, List.mem_range]
      simp
  · have hs : List.Pairwise (idxLe comps) (buildHierarchy d comps).2 := by
      unfold buildHierarchy
      exact List.sorted_insertionSort (idxLe comps) _
    exact List.Pairwise.map (elemAt comps) (fun a b hab => hab) hs

/-- Claim C1 counterexample: the same three-component chain `A > B > C` fed
to `buildHierarchy` in the order `[C, B, A]` (child before parent) links
`C` to parent `B` correctly, but computes `C.level = 1` while its parent
`B` also gets level `1` — the level does not equal the parent's level
plus one, because the source reads the parent's *current* level, still
`0`, when the child is processed first. -/
theorem hierarchy_builder_counterexample :
    (buildHierarchy exDom ((getAllComponents exDom).reverse)).1.map
        BNode.parentIdx = [some 1, some 2, none] ∧
    (buildHierarchy exDom ((getAllComponents exDom).reverse)).1.map
        BNode.level = [1, 1, 0] ∧
    ¬ (∀ (i : Nat) (bn : BNode) (j : Nat) (pn : BNode),
        (buildHierarchy exDom ((getAllComponents exDom).reverse)).1[i]? = some bn →
        bn.parentIdx = some j →
        (buildHierarchy exDom ((getAllComponents exDom).reverse)).1[j]? = some pn →
        bn.level = pn.level + 1) := by
  refine ⟨by decide, by decide, ?_⟩
  intro hclaim
  have h01 := hclaim 0
    { elem := [0, 0, 0], filename := "C.scala", line := "3",
      path := "app/C.scala", parentIdx := some 1, level := 1,
      children := [], expanded := false }
    1
    { elem := [0, 0], filename := "B.scala", line := "2",
      path := "app/B.scala", parentIdx := some 2, level := 1,
      children := [0], expanded := false }
    (by decide) (by decide) (by decide)
  simp at h01

/-- Witness for C1 (amended) on the discovery output of the example
document: `C`'s node has parent `B` with level 2 = 1 + 1 and `B` is its
nearest inspectable ancestor. -/
theorem hierarchy_builder_amended_witness :
    ∃ pn, (buildHierarchy exDom (getAllComponents exDom)).1[1]? = some pn ∧
      ({ elem := [0, 0, 0], filename := "C.scala", line := "3",
         path := "app/C.scala", parentIdx := some 1, level := 2,
         children := [], expanded := false } : BNode).level = pn.level + 1 ∧
      nearestInspectableAncestor exDom [0, 0, 0] = some pn.elem := by
  obtain ⟨h1, _⟩ := hierarchy_builder_amended exDom (getAllComponents exDom)
    (by decide) (by decide) (by decide)
  have h2 := h1 2
    { elem := [0, 0, 0], filename := "C.scala", line := "3",
      path := "app/C.scala", parentIdx := some 1, level := 2,
      children := [], expanded := false }
    (by decide)
  exact h2.2.1 1 (by decide)

end LaminarDevtools
